import Mathlib

/-!
Verification development for `jandita_lipieza_bot.py`, a Telegram bot that
maintains a rolling table of weekly assignments (fields `familia` and `turno`)
keyed by the ISO date of each week's Monday.

The embedding models:
* the proleptic Gregorian calendar exactly as Python's `datetime.date`
  (ordinals, weekday with Monday = 0, date ± `timedelta` arithmetic);
* `generate_weeks`, `build_week_table`, `handle_button`, `handle_text` and the
  message routing set up in `main`;
* the record store through the `upsert_week` calls the handlers emit and a
  failure flag for the connection.
-/

/-- Gregorian leap-year rule, as Python's `calendar.isleap`. -/
def isLeap (y : Nat) : Bool := decide (y % 4 = 0 ∧ (¬ y % 100 = 0 ∨ y % 400 = 0))

/-- Length of month `m` given the leap flag of the year. -/
def daysInMonthAux (leap : Bool) (m : Nat) : Nat :=
  if m = 2 then (if leap then 29 else 28)
  else if m = 4 ∨ m = 6 ∨ m = 9 ∨ m = 11 then 30
  else 31

def daysInMonth (y m : Nat) : Nat := daysInMonthAux (isLeap y) m

/-- Days in the year before the first of month `m` (so 0 for January). -/
def daysBeforeMonthAux (leap : Bool) (m : Nat) : Nat :=
  (List.range (m - 1)).foldl (fun acc i => acc + daysInMonthAux leap (i + 1)) 0

/-- Days before January 1 of year `y`, as CPython's `_days_before_year`
(`y-1` full years with the Gregorian leap corrections). -/
def daysBeforeYear (y : Nat) : Nat :=
  365 * (y - 1) + (y - 1) / 4 + (y - 1) / 400 - (y - 1) / 100

/-- Python's `date.toordinal`: day number with `0001-01-01` as day 1. -/
def toOrdinal (y m d : Nat) : Nat :=
  daysBeforeYear y + daysBeforeMonthAux (isLeap y) m + d

/-- A calendar date, as Python's `datetime.date` triple. -/
structure Date where
  year : Nat
  month : Nat
  day : Nat
deriving DecidableEq, Repr

/-- The dates representable by `datetime.date` (Python also caps the year at
9999; we only add that bound where a claim needs it). -/
def Date.valid (dt : Date) : Prop :=
  1 ≤ dt.year ∧ 1 ≤ dt.month ∧ dt.month ≤ 12 ∧ 1 ≤ dt.day ∧
    dt.day ≤ daysInMonthAux (isLeap dt.year) dt.month

instance (dt : Date) : Decidable dt.valid := by unfold Date.valid; infer_instance

def Date.ord (dt : Date) : Nat := toOrdinal dt.year dt.month dt.day

/-- Python's `date.weekday()`: Monday = 0.  `0001-01-01` is a Monday. -/
def pyWeekday (dt : Date) : Nat := (dt.ord - 1) % 7

/-- The day after `dt` (the successor used to realise `+ timedelta`). -/
def succDate (dt : Date) : Date :=
  if dt.day < daysInMonthAux (isLeap dt.year) dt.month then ⟨dt.year, dt.month, dt.day + 1⟩
  else if dt.month < 12 then ⟨dt.year, dt.month + 1, 1⟩
  else ⟨dt.year + 1, 1, 1⟩

/-- The day before `dt` (used to realise `- timedelta`). -/
def predDate (dt : Date) : Date :=
  if 1 < dt.day then ⟨dt.year, dt.month, dt.day - 1⟩
  else if 1 < dt.month then ⟨dt.year, dt.month - 1, daysInMonthAux (isLeap dt.year) (dt.month - 1)⟩
  else ⟨dt.year - 1, 12, 31⟩

/-- Python date addition: `dt` plus a timedelta of `n` days. -/
def addDays (dt : Date) (n : Nat) : Date := succDate^[n] dt

/-- Python date subtraction: `dt` minus a timedelta of `n` days. -/
def subDays (dt : Date) (n : Nat) : Date := predDate^[n] dt

-- ### Calendar arithmetic lemmas

theorem Date.valid_mk (y m d : Nat) :
    (Date.mk y m d).valid ↔
      1 ≤ y ∧ 1 ≤ m ∧ m ≤ 12 ∧ 1 ≤ d ∧ d ≤ daysInMonthAux (isLeap y) m := Iff.rfl

theorem Date.ord_mk (y m d : Nat) :
    (Date.mk y m d).ord = daysBeforeYear y + daysBeforeMonthAux (isLeap y) m + d := rfl

theorem Date.ord_eq (dt : Date) :
    dt.ord = daysBeforeYear dt.year + daysBeforeMonthAux (isLeap dt.year) dt.month + dt.day := rfl

theorem daysInMonthAux_pos (leap : Bool) (m : Nat) : 28 ≤ daysInMonthAux leap m := by
  unfold daysInMonthAux
  split
  · split <;> omega
  · split <;> omega

theorem daysBeforeMonthAux_succ (leap : Bool) (m : Nat) (h1 : 1 ≤ m) (h2 : m ≤ 12) :
    daysBeforeMonthAux leap (m + 1) = daysBeforeMonthAux leap m + daysInMonthAux leap m := by
  have he : m + 1 - 1 = (m - 1) + 1 := by omega
  rw [daysBeforeMonthAux, he, List.range_succ, List.foldl_append]
  have he2 : m - 1 + 1 = m := by omega
  simp [daysBeforeMonthAux, he2]

theorem daysBeforeMonthAux_year (leap : Bool) :
    daysBeforeMonthAux leap 13 = if leap then 366 else 365 := by
  cases leap <;> decide

set_option maxHeartbeats 1000000 in
theorem daysBeforeYear_succ (y : Nat) (hy : 1 ≤ y) :
    daysBeforeYear (y + 1) = daysBeforeYear y + daysBeforeMonthAux (isLeap y) 13 := by
  cases hL : isLeap y
  case true =>
    unfold isLeap at hL
    rw [decide_eq_true_eq] at hL
    have h13 : daysBeforeMonthAux true 13 = 366 := by decide
    rw [h13]
    unfold daysBeforeYear
    omega
  case false =>
    unfold isLeap at hL
    rw [decide_eq_false_iff_not] at hL
    have h13 : daysBeforeMonthAux false 13 = 365 := by decide
    rw [h13]
    unfold daysBeforeYear
    omega

theorem daysBeforeMonth_add_le (leap : Bool) (m d : Nat) (h1 : 1 ≤ m) (h2 : m ≤ 12)
    (hd : d ≤ daysInMonthAux leap m) :
    daysBeforeMonthAux leap m + d ≤ daysBeforeMonthAux leap 13 := by
  have key : ∀ m' : Nat, m' < 13 → 1 ≤ m' →
      daysBeforeMonthAux leap m' + daysInMonthAux leap m' ≤ daysBeforeMonthAux leap 13 := by
    cases leap <;> decide
  have := key m (by omega) h1
  omega

theorem succDate_valid (dt : Date) (h : dt.valid) : (succDate dt).valid := by
  obtain ⟨h1, h2, h3, h4, h5⟩ := h
  unfold succDate
  split
  · rw [Date.valid_mk]
    exact ⟨h1, h2, h3, by omega, by omega⟩
  · split
    next hm =>
      rw [Date.valid_mk]
      have p1 := daysInMonthAux_pos (isLeap dt.year) (dt.month + 1)
      exact ⟨h1, by omega, by omega, by omega, by omega⟩
    next hm =>
      rw [Date.valid_mk]
      have p2 := daysInMonthAux_pos (isLeap (dt.year + 1)) 1
      exact ⟨by omega, by omega, by omega, by omega, by omega⟩

theorem succDate_ord (dt : Date) (h : dt.valid) : (succDate dt).ord = dt.ord + 1 := by
  obtain ⟨h1, h2, h3, h4, h5⟩ := h
  unfold succDate
  split
  next hlt =>
    rw [Date.ord_mk, Date.ord_eq]
    omega
  next hge =>
    split
    next hm =>
      rw [Date.ord_mk, Date.ord_eq]
      rw [daysBeforeMonthAux_succ (isLeap dt.year) dt.month h2 h3]
      omega
    next hm =>
      have hm12 : dt.month = 12 := by omega
      rw [Date.ord_mk, Date.ord_eq]
      rw [daysBeforeYear_succ dt.year h1]
      have hs := daysBeforeMonthAux_succ (isLeap dt.year) 12 (by omega) (by omega)
      norm_num at hs
      have hd31 : daysInMonthAux (isLeap dt.year) 12 = 31 := by cases isLeap dt.year <;> decide
      have hjan : daysBeforeMonthAux (isLeap (dt.year + 1)) 1 = 0 := by
        cases isLeap (dt.year + 1) <;> decide
      rw [hm12] at h5 hge
      rw [hd31] at h5 hs hge
      rw [hm12, hjan]
      omega

theorem addDays_valid (dt : Date) (n : Nat) (h : dt.valid) : (addDays dt n).valid := by
  induction n with
  | zero => exact h
  | succ k ih =>
    rw [addDays, Function.iterate_succ_apply']
    exact succDate_valid _ ih

theorem addDays_ord (dt : Date) (n : Nat) (h : dt.valid) : (addDays dt n).ord = dt.ord + n := by
  induction n with
  | zero => rfl
  | succ k ih =>
    rw [addDays, Function.iterate_succ_apply']
    change (succDate (addDays dt k)).ord = dt.ord + (k + 1)
    rw [succDate_ord _ (addDays_valid dt k h), ih]
    omega

theorem predDate_valid_ord (dt : Date) (h : dt.valid) (h2 : 2 ≤ dt.ord) :
    (predDate dt).valid ∧ (predDate dt).ord = dt.ord - 1 := by
  obtain ⟨hy, hm1, hm2, hd1, hd2⟩ := h
  unfold predDate
  split
  · rw [Date.valid_mk, Date.ord_mk, Date.ord_eq]
    exact ⟨⟨hy, hm1, hm2, by omega, by omega⟩, by omega⟩
  · split
    next hmgt =>
      rw [Date.valid_mk, Date.ord_mk, Date.ord_eq]
      have p1 := daysInMonthAux_pos (isLeap dt.year) (dt.month - 1)
      have hstep := daysBeforeMonthAux_succ (isLeap dt.year) (dt.month - 1) (by omega) (by omega)
      have he : dt.month - 1 + 1 = dt.month := by omega
      rw [he] at hstep
      exact ⟨⟨hy, by omega, by omega, by omega, by omega⟩, by omega⟩
    next hmle =>
      have hmm : dt.month = 1 := by omega
      have hdd : dt.day = 1 := by omega
      have hjan : daysBeforeMonthAux (isLeap dt.year) 1 = 0 := by
        cases isLeap dt.year <;> decide
      have hord : dt.ord = daysBeforeYear dt.year + 1 := by
        rw [Date.ord_eq, hmm, hjan, hdd]
      have hy2 : 2 ≤ dt.year := by
        by_contra hc
        have h1' : dt.year = 1 := by omega
        rw [h1'] at hord
        have : daysBeforeYear 1 = 0 := by unfold daysBeforeYear; omega
        omega
      have hstep := daysBeforeYear_succ (dt.year - 1) (by omega)
      have hy1 : dt.year - 1 + 1 = dt.year := by omega
      rw [hy1] at hstep
      have hs := daysBeforeMonthAux_succ (isLeap (dt.year - 1)) 12 (by omega) (by omega)
      norm_num at hs
      have hd31 : daysInMonthAux (isLeap (dt.year - 1)) 12 = 31 := by
        cases isLeap (dt.year - 1) <;> decide
      have hd31b : daysInMonthAux (isLeap (dt.year - 1)) 12 = 31 := hd31
      rw [Date.valid_mk, Date.ord_mk]
      rw [hd31] at hs
      refine ⟨⟨by omega, by omega, by omega, by omega, by omega⟩, ?_⟩
      omega

theorem subDays_valid_ord (dt : Date) (n : Nat) (h : dt.valid) (hn : n + 1 ≤ dt.ord) :
    (subDays dt n).valid ∧ (subDays dt n).ord = dt.ord - n := by
  induction n generalizing dt with
  | zero => exact ⟨h, rfl⟩
  | succ k ih =>
    rw [subDays, Function.iterate_succ_apply]
    have hp := predDate_valid_ord dt h (by omega)
    have hrec := ih (predDate dt) hp.1 (by omega)
    rw [subDays] at hrec
    refine ⟨hrec.1, ?_⟩
    rw [hrec.2, hp.2]
    omega

theorem date_ord_pos (dt : Date) (h : dt.valid) : 1 ≤ dt.ord := by
  obtain ⟨h1, h2, h3, h4, h5⟩ := h
  rw [Date.ord_eq]
  omega

-- ### Ordinal comparison agrees with lexicographic comparison of (year, month, day)

theorem daysInMonthAux_le (leap : Bool) (m : Nat) : daysInMonthAux leap m ≤ 31 := by
  unfold daysInMonthAux
  split
  · split <;> omega
  · split <;> omega

theorem daysBeforeYear_le_succ (y : Nat) : daysBeforeYear y ≤ daysBeforeYear (y + 1) := by
  unfold daysBeforeYear
  omega

theorem daysBeforeYear_mono {y1 y2 : Nat} (h : y1 ≤ y2) :
    daysBeforeYear y1 ≤ daysBeforeYear y2 := by
  induction y2 with
  | zero =>
    have hz : y1 = 0 := by omega
    simp [hz]
  | succ k ih =>
    rcases Nat.lt_or_ge y1 (k + 1) with hl | hg
    · exact le_trans (ih (by omega)) (daysBeforeYear_le_succ k)
    · have he : y1 = k + 1 := by omega
      simp [he]

theorem daysBeforeMonthAux_mono (leap : Bool) {a b : Nat} (ha : a < 14) (hb : b < 14)
    (h : a ≤ b) : daysBeforeMonthAux leap a ≤ daysBeforeMonthAux leap b := by
  have key : ∀ a' : Nat, a' < 14 → ∀ b' : Nat, b' < 14 → a' ≤ b' →
      daysBeforeMonthAux leap a' ≤ daysBeforeMonthAux leap b' := by
    cases leap <;> decide
  exact key a ha b hb h

theorem Date.ord_lt_of_lex (d1 d2 : Date) (h1 : d1.valid) (h2 : d2.valid)
    (hlex : d1.year < d2.year ∨ (d1.year = d2.year ∧
      (d1.month < d2.month ∨ (d1.month = d2.month ∧ d1.day < d2.day)))) :
    d1.ord < d2.ord := by
  obtain ⟨a1, b1, c1, e1, f1⟩ := h1
  obtain ⟨a2, b2, c2, e2, f2⟩ := h2
  rw [Date.ord_eq, Date.ord_eq]
  rcases hlex with hy | ⟨hy, hm | ⟨hm, hd⟩⟩
  · have hfull := daysBeforeMonth_add_le (isLeap d1.year) d1.month d1.day b1 c1 f1
    have hy1 := daysBeforeYear_succ d1.year a1
    have hmono := daysBeforeYear_mono (show d1.year + 1 ≤ d2.year by omega)
    have hz := Nat.zero_le (daysBeforeMonthAux (isLeap d2.year) d2.month)
    omega
  · rw [hy]
    have hstep := daysBeforeMonthAux_succ (isLeap d2.year) d1.month b1 c1
    rw [hy] at f1
    have hmono := daysBeforeMonthAux_mono (isLeap d2.year)
      (show d1.month + 1 < 14 by omega) (show d2.month < 14 by omega) (by omega)
    omega
  · rw [hy, hm]
    omega

theorem Date.ord_lt_iff_lex (d1 d2 : Date) (h1 : d1.valid) (h2 : d2.valid) :
    d1.ord < d2.ord ↔ (d1.year < d2.year ∨ (d1.year = d2.year ∧
      (d1.month < d2.month ∨ (d1.month = d2.month ∧ d1.day < d2.day)))) := by
  constructor
  · intro hlt
    have htri : (d1.year < d2.year ∨ (d1.year = d2.year ∧
        (d1.month < d2.month ∨ (d1.month = d2.month ∧ d1.day < d2.day)))) ∨
        (d1.year = d2.year ∧ d1.month = d2.month ∧ d1.day = d2.day) ∨
        (d2.year < d1.year ∨ (d2.year = d1.year ∧
        (d2.month < d1.month ∨ (d2.month = d1.month ∧ d2.day < d1.day)))) := by omega
    rcases htri with h | ⟨hy, hm, hd⟩ | h
    · exact h
    · exfalso
      have : d1.ord = d2.ord := by rw [Date.ord_eq, Date.ord_eq, hy, hm, hd]
      omega
    · exfalso
      have := Date.ord_lt_of_lex d2 d1 h2 h1 h
      omega
  · exact Date.ord_lt_of_lex d1 d2 h1 h2

-- ### The cutoff date of generate_weeks (end of June, this school year or next)

/-- The `end` date of `generate_weeks`: June 30 of this year if `today.month <= 6`,
else June 30 of next year. -/
def cutoffDate (today : Date) : Date :=
  if today.month ≤ 6 then ⟨today.year, 6, 30⟩ else ⟨today.year + 1, 6, 30⟩

theorem cutoffDate_valid (today : Date) (h : today.valid) : (cutoffDate today).valid := by
  obtain ⟨h1, h2, h3, h4, h5⟩ := h
  unfold cutoffDate
  have k1 : daysInMonthAux (isLeap today.year) 6 = 30 := by cases isLeap today.year <;> decide
  have k2 : daysInMonthAux (isLeap (today.year + 1)) 6 = 30 := by
    cases isLeap (today.year + 1) <;> decide
  split
  · rw [Date.valid_mk]
    omega
  · rw [Date.valid_mk]
    omega

theorem cutoffDate_ge (today : Date) (h : today.valid) :
    today.ord ≤ (cutoffDate today).ord := by
  obtain ⟨h1, h2, h3, h4, h5⟩ := h
  unfold cutoffDate
  split
  next hle =>
    rw [Date.ord_eq, Date.ord_mk]
    have key : ∀ m' : Nat, m' < 7 → 1 ≤ m' → ∀ d' : Nat, d' < 32 →
        d' ≤ daysInMonthAux (isLeap today.year) m' →
        daysBeforeMonthAux (isLeap today.year) m' + d' ≤
          daysBeforeMonthAux (isLeap today.year) 6 + 30 := by
      cases isLeap today.year <;> decide
    have hdle := daysInMonthAux_le (isLeap today.year) today.month
    have := key today.month (by omega) h2 today.day (by omega) h5
    omega
  next hgt =>
    rw [Date.ord_eq, Date.ord_mk]
    have hfull := daysBeforeMonth_add_le (isLeap today.year) today.month today.day h2 h3 h5
    have hy1 := daysBeforeYear_succ today.year h1
    have hz := Nat.zero_le (daysBeforeMonthAux (isLeap (today.year + 1)) 6)
    omega

-- ### ISO-8601 formatting ("YYYY-MM-DD") and parsing, as Python's
-- `date.isoformat` / `date.fromisoformat`

def digitChar (n : Nat) : Char := Char.ofNat (48 + n)

def pad2 (n : Nat) : List Char := [digitChar (n / 10 % 10), digitChar (n % 10)]

def pad4 (n : Nat) : List Char := pad2 (n / 100) ++ pad2 (n % 100)

/-- Python's `date.isoformat()` for the years `datetime` supports (max 9999). -/
def Date.isoformat (dt : Date) : String :=
  ⟨pad4 dt.year ++ '-' :: (pad2 dt.month ++ '-' :: pad2 dt.day)⟩

def digitVal (c : Char) : Option Nat := if c.isDigit then some (c.toNat - 48) else none

/-- Python's `date.fromisoformat` on the strict "YYYY-MM-DD" format; `none`
models the `ValueError` raised on anything malformed or out of range. -/
def parseIso (s : String) : Option Date :=
  match s.data with
  | [y1, y2, y3, y4, s1, m1, m2, s2, e1, e2] =>
    if s1 = '-' ∧ s2 = '-' then
      match digitVal y1, digitVal y2, digitVal y3, digitVal y4, digitVal m1, digitVal m2,
          digitVal e1, digitVal e2 with
      | some a, some b, some c, some d, some e, some f, some g, some h =>
        let dt : Date := ⟨1000 * a + 100 * b + 10 * c + d, 10 * e + f, 10 * g + h⟩
        if dt.valid then some dt else none
      | _, _, _, _, _, _, _, _ => none
    else none
  | _ => none

-- ### Lexicographic order on ISO strings = chronological order

theorem digitChar_lt_iff (a b : Nat) (ha : a < 10) (hb : b < 10) :
    (digitChar a < digitChar b ↔ a < b) ∧ (digitChar a = digitChar b ↔ a = b) := by
  have key : ∀ a' : Nat, a' < 10 → ∀ b' : Nat, b' < 10 →
      (digitChar a' < digitChar b' ↔ a' < b') ∧ (digitChar a' = digitChar b' ↔ a' = b') := by
    decide
  exact key a ha b hb

theorem lex_cons_iff_char (a b : Char) (xs ys : List Char) :
    List.Lex (· < ·) (a :: xs) (b :: ys) ↔ a < b ∨ (a = b ∧ List.Lex (· < ·) xs ys) := by
  constructor
  · intro h
    cases h with
    | cons h => exact Or.inr ⟨rfl, h⟩
    | rel h => exact Or.inl h
  · rintro (h | ⟨rfl, h⟩)
    · exact List.Lex.rel h
    · exact List.Lex.cons h

theorem lex_digit_cons (a b : Nat) (ha : a < 10) (hb : b < 10) (xs ys : List Char) :
    List.Lex (· < ·) (digitChar a :: xs) (digitChar b :: ys) ↔
      a < b ∨ (a = b ∧ List.Lex (· < ·) xs ys) := by
  rw [lex_cons_iff_char]
  have h := digitChar_lt_iff a b ha hb
  rw [h.1, h.2]

theorem lex_pad2_append (m n : Nat) (hm : m < 100) (hn : n < 100) (xs ys : List Char) :
    List.Lex (· < ·) (pad2 m ++ xs) (pad2 n ++ ys) ↔
      m < n ∨ (m = n ∧ List.Lex (· < ·) xs ys) := by
  unfold pad2
  simp only [List.cons_append, List.nil_append]
  rw [lex_digit_cons _ _ (by omega) (by omega), lex_digit_cons _ _ (by omega) (by omega)]
  rcases Classical.em (List.Lex (fun a b => a < b) xs ys) with hP | hP <;> simp [hP] <;> omega

theorem lex_pad4_append (m n : Nat) (hm : m < 10000) (hn : n < 10000) (xs ys : List Char) :
    List.Lex (· < ·) (pad4 m ++ xs) (pad4 n ++ ys) ↔
      m < n ∨ (m = n ∧ List.Lex (· < ·) xs ys) := by
  unfold pad4
  rw [List.append_assoc, List.append_assoc]
  rw [lex_pad2_append _ _ (by omega) (by omega), lex_pad2_append _ _ (by omega) (by omega)]
  rcases Classical.em (List.Lex (fun a b => a < b) xs ys) with hP | hP <;> simp [hP] <;> omega

theorem lex_dash_cons (xs ys : List Char) :
    List.Lex (· < ·) ('-' :: xs) ('-' :: ys) ↔ List.Lex (· < ·) xs ys := by
  rw [lex_cons_iff_char]
  simp

theorem iso_lt_iff_lex_tuple (d1 d2 : Date) (h1y : d1.year < 10000) (h2y : d2.year < 10000)
    (h1m : d1.month < 100) (h2m : d2.month < 100) (h1d : d1.day < 100) (h2d : d2.day < 100) :
    (Date.isoformat d1 < Date.isoformat d2) ↔
      (d1.year < d2.year ∨ (d1.year = d2.year ∧
        (d1.month < d2.month ∨ (d1.month = d2.month ∧ d1.day < d2.day)))) := by
  rw [String.lt_iff_toList_lt]
  show List.Lex (· < ·) (pad4 d1.year ++ '-' :: (pad2 d1.month ++ '-' :: pad2 d1.day))
      (pad4 d2.year ++ '-' :: (pad2 d2.month ++ '-' :: pad2 d2.day)) ↔ _
  rw [lex_pad4_append _ _ h1y h2y, lex_dash_cons, lex_pad2_append _ _ h1m h2m,
    lex_dash_cons]
  rw [show pad2 d1.day = pad2 d1.day ++ [] from (List.append_nil _).symm,
    show pad2 d2.day = pad2 d2.day ++ [] from (List.append_nil _).symm,
    lex_pad2_append _ _ h1d h2d]
  simp

theorem iso_lt_iff_ord (d1 d2 : Date) (h1 : d1.valid) (h2 : d2.valid)
    (hy1 : d1.year ≤ 9999) (hy2 : d2.year ≤ 9999) :
    Date.isoformat d1 < Date.isoformat d2 ↔ d1.ord < d2.ord := by
  obtain ⟨a1, b1, c1, e1, f1⟩ := h1
  obtain ⟨a2, b2, c2, e2, f2⟩ := h2
  have g1 := daysInMonthAux_le (isLeap d1.year) d1.month
  have g2 := daysInMonthAux_le (isLeap d2.year) d2.month
  rw [iso_lt_iff_lex_tuple d1 d2 (by omega) (by omega) (by omega) (by omega) (by omega)
    (by omega)]
  rw [← Date.ord_lt_iff_lex d1 d2 ⟨a1, b1, c1, e1, f1⟩ ⟨a2, b2, c2, e2, f2⟩]

-- ### The week table: records, generation, DB overlay

structure WeekRec where
  start : Date
  end_ : Date
  familia : Option String
  turno : Option String
deriving DecidableEq, Repr

structure DBRow where
  week_start : Date
  familia : Option String
  turno : Option String
deriving DecidableEq, Repr

/-- One call to `upsert_week(week_start, familia, turno)`. -/
structure UpsertCall where
  week_start : Date
  familia : Option String
  turno : Option String
deriving DecidableEq, Repr

/-- The `while start <= end` loop of `generate_weeks`; `fuel` bounds the
iteration count and is chosen large enough that the loop always stops on its
own condition. -/
def genWeeksLoop (fuel : Nat) (s e : Date) : List (String × WeekRec) :=
  match fuel with
  | 0 => []
  | fuel' + 1 =>
    if s.ord ≤ e.ord then
      (s.isoformat, ⟨s, addDays s 6, none, none⟩) :: genWeeksLoop fuel' (addDays s 7) e
    else []

/-- The DB overlay loop of `generate_weeks`: for each row whose key is in the
table, copy `familia` and `turno` into that slot; other rows are ignored. -/
def overlay (tbl : List (String × WeekRec)) (rows : List DBRow) : List (String × WeekRec) :=
  rows.foldl (fun t row =>
    t.map (fun kw =>
      if kw.1 = row.week_start.isoformat then
        (kw.1, { kw.2 with familia := row.familia, turno := row.turno })
      else kw)) tbl

/-- The rebuild `generate_weeks`: `weeks.clear()` discards the previous table (`old`),
then the Monday of the current week through the last Monday on or before the
June-30 cutoff is generated with both fields unset, and the DB rows are
overlaid. -/
def generate_weeks (old : List (String × WeekRec)) (today : Date) (db : List DBRow) :
    List (String × WeekRec) :=
  let e := cutoffDate today
  let s := subDays today (pyWeekday today)
  overlay (genWeeksLoop (e.ord + 1) s e) db

-- ### Rendering (build_week_table)

/-- Manual Spanish month abbreviations (the `MONTHS_SHORT` dict); months
outside 1..12 never occur on valid dates. -/
def MONTHS_SHORT (m : Nat) : String :=
  match m with
  | 1 => "Ene" | 2 => "Feb" | 3 => "Mar" | 4 => "Abr"
  | 5 => "May" | 6 => "Jun" | 7 => "Jul" | 8 => "Ago"
  | 9 => "Sep" | 10 => "Oct" | 11 => "Nov" | 12 => "Dic"
  | _ => ""

def format_short_date (d : Date) : String := toString d.day ++ " " ++ MONTHS_SHORT d.month

structure Button where
  text : String
  callback_data : String
deriving DecidableEq, Repr

/-- Python truthiness coalescing (`w["familia"] if w["familia"] else "—"` and
`w['familia'] or '—'`): `None` and the empty string are both falsy and render
as the em-dash placeholder. -/
def orDash (v : Option String) : String :=
  match v with
  | none => "—"
  | some s => if s = "" then "—" else s

def semanaLabel (w : WeekRec) : String :=
  format_short_date w.start ++ " – " ++ format_short_date w.end_

/-- One interactive week row of the grid. -/
def mkWeekRow (kw : String × WeekRec) : List Button :=
  [⟨semanaLabel kw.2, "week:" ++ kw.1⟩,
   ⟨orDash kw.2.familia, "familia:" ++ kw.1⟩,
   ⟨orDash kw.2.turno, "turno:" ++ kw.1⟩]

/-- Key order used by `sorted(weeks.keys())`. -/
def keyLe (a b : String × WeekRec) : Prop := a.1 ≤ b.1

instance : DecidableRel keyLe := fun a b => inferInstanceAs (Decidable (a.1 ≤ b.1))

instance : IsTotal (String × WeekRec) keyLe := ⟨fun a b => le_total a.1 b.1⟩

instance : IsTrans (String × WeekRec) keyLe := ⟨fun _ _ _ hab hbc => le_trans hab hbc⟩

/-- The entries `build_week_table` turns into week rows: the table iterated
in `sorted(weeks.keys())` order, keeping an entry iff `show_all` or its start
is not after `today + timedelta(weeks=12)`. -/
def buildEntries (show_all : Bool) (today : Date) (weeks : List (String × WeekRec)) :
    List (String × WeekRec) :=
  let cutoff := addDays today 84
  (weeks.insertionSort keyLe).filter
    (fun kw => show_all || decide (kw.2.start.ord ≤ cutoff.ord))

/-- The grid builder `build_week_table`: header row, one row per kept week, one control row. -/
def build_week_table (show_all : Bool) (today : Date) (weeks : List (String × WeekRec)) :
    List (List Button) :=
  let header : List Button :=
    [⟨"📅 Semana", "noop"⟩, ⟨"👨‍👩‍👧 Familia", "noop"⟩, ⟨"⏰ Turno", "noop"⟩]
  let ctrl : List Button :=
    if show_all then [⟨"◀ Volver a 3 meses", "show_3m"⟩]
    else [⟨"📅 Mostrar todo", "show_all"⟩]
  header :: (buildEntries show_all today weeks).map mkWeekRow ++ [ctrl]

-- ### Session state and the two handlers

structure PendingEdit where
  week : String
  field : String
deriving DecidableEq, Repr

structure BotState where
  weeks : List (String × WeekRec)
  pending_edits : List (Nat × PendingEdit)
deriving DecidableEq, Repr

/-- The exceptions the handlers can let escape, plus the store failure. -/
inductive PyErr
  | keyError (key : String)
  | indexError
  | valueError
  | storeError
deriving DecidableEq, Repr

/-- Python's `s.split(":", 1)`: the text before the first colon, and the rest
after it when a colon exists. -/
def splitColon1 (cs : List Char) : List Char × Option (List Char) :=
  match cs with
  | [] => ([], none)
  | c :: rest =>
    if c = ':' then ([], some rest)
    else
      let p := splitColon1 rest
      (c :: p.1, p.2)

/-- Python's `str.strip()` (ASCII whitespace). -/
def pyStrip (s : String) : String :=
  ⟨((s.data.dropWhile Char.isWhitespace).reverse.dropWhile Char.isWhitespace).reverse⟩

/-- Python's `str.lower()` (ASCII case fold suffices here). -/
def pyLower (s : String) : String := ⟨s.data.map Char.toLower⟩

/-- The transport's routing semantics: a text message that begins with '/'
carries a bot-command entity at offset 0, so `filters.COMMAND` matches it
and `~filters.COMMAND` excludes it. -/
def isCommandText (s : String) : Bool :=
  match s.data with
  | c :: _ => c == '/'
  | [] => false

/-- Assignment `pending_edits[uid] = pe` on the dict keyed by user id. -/
def setPending (m : List (Nat × PendingEdit)) (uid : Nat) (pe : PendingEdit) :
    List (Nat × PendingEdit) :=
  if (List.lookup uid m).isSome then
    m.map (fun p => if p.1 == uid then (uid, pe) else p)
  else m ++ [(uid, pe)]

/-- The pop `pending_edits.pop(uid)`: the value half and the removal half. -/
def popPending (m : List (Nat × PendingEdit)) (uid : Nat) :
    Option PendingEdit × List (Nat × PendingEdit) :=
  (List.lookup uid m, m.filter (fun p => p.1 != uid))

/-- Assignment `weeks[week_key][field] = v`.  For a field name other than the two the
button handler ever stores, the Python dict would gain an extra key that
nothing in the program reads; the no-op branch is observationally identical. -/
def WeekRec.setField (w : WeekRec) (f : String) (v : Option String) : WeekRec :=
  if f == "familia" then { w with familia := v }
  else if f == "turno" then { w with turno := v }
  else w

/-- In-place update of the record stored under key `k`. -/
def setWeekField (weeks : List (String × WeekRec)) (k f : String) (v : Option String) :
    List (String × WeekRec) :=
  weeks.map (fun kw => if kw.1 == k then (kw.1, kw.2.setField f v) else kw)

def promptMsg (f : String) (w : WeekRec) : String :=
  "Escribe el " ++ f ++ " para la semana " ++ format_short_date w.start ++ " – " ++
    format_short_date w.end_ ++ " (o /remove para borrar)."

def detailMsg (w : WeekRec) : String :=
  "📅 " ++ format_short_date w.start ++ " – " ++ format_short_date w.end_ ++ "\n" ++
    "Familia: " ++ orDash w.familia ++ "\n" ++ "Turno: " ++ orDash w.turno

structure ButtonOut where
  state : BotState
  sent : List String
  edited : List (String × List (List Button))
  err : Option PyErr
deriving DecidableEq, Repr

/-- The handler `handle_button`.  The state is returned even when an exception escapes,
because the Python globals survive the raise; in the familia/turno branch the
pending edit is recorded *before* the `weeks[key]` lookup that can raise
`KeyError`. -/
def handle_button (st : BotState) (uid : Nat) (cbdata : String) (today : Date) : ButtonOut :=
  let parts := splitColon1 cbdata.data
  let field : String := ⟨parts.1⟩
  if field = "familia" ∨ field = "turno" then
    match parts.2 with
    | none => ⟨st, [], [], some .indexError⟩
    | some keyChars =>
      let key : String := ⟨keyChars⟩
      let st1 : BotState :=
        { st with pending_edits := setPending st.pending_edits uid ⟨key, field⟩ }
      match List.lookup key st.weeks with
      | none => ⟨st1, [], [], some (.keyError key)⟩
      | some w => ⟨st1, [promptMsg field w], [], none⟩
  else if field = "week" then
    match parts.2 with
    | none => ⟨st, [], [], some .indexError⟩
    | some keyChars =>
      let key : String := ⟨keyChars⟩
      match List.lookup key st.weeks with
      | none => ⟨st, [], [], some (.keyError key)⟩
      | some w => ⟨st, [detailMsg w], [], none⟩
  else if field = "show_all" then
    ⟨st, [],
      [("📅 Planificación completa (hasta junio):", build_week_table true today st.weeks)], none⟩
  else if field = "show_3m" then
    ⟨st, [],
      [("📅 Planificación (próximos 3 meses):", build_week_table false today st.weeks)], none⟩
  else ⟨st, [], [], none⟩

structure TextOut where
  state : BotState
  sent : List String
  upserts : List UpsertCall
  err : Option PyErr
deriving DecidableEq, Repr

/-- The handler `handle_text`, with `storeFail` modelling the psycopg2 upsert raising.
The pop happens before anything can fail; the in-memory week mutation happens
before the upsert.  The success reply also carries `build_week_table false`
as its keyboard; the claims only inspect the text. -/
def handle_text (st : BotState) (uid : Nat) (text : String) (storeFail : Bool) : TextOut :=
  match List.lookup uid st.pending_edits with
  | none => ⟨st, [], [], none⟩
  | some edit =>
    let st1 : BotState := { st with pending_edits := (popPending st.pending_edits uid).2 }
    let newVal : Option String :=
      if pyLower (pyStrip text) = "/remove" then none else some (pyStrip text)
    match List.lookup edit.week st1.weeks with
    | none => ⟨st1, [], [], some (.keyError edit.week)⟩
    | some w =>
      let w' := w.setField edit.field newVal
      let st2 : BotState :=
        { st1 with weeks := setWeekField st1.weeks edit.week edit.field newVal }
      match parseIso edit.week with
      | none => ⟨st2, [], [], some .valueError⟩
      | some wsd =>
        if storeFail then ⟨st2, [], [], some .storeError⟩
        else ⟨st2, ["✅ Planificación actualizada:"], [⟨wsd, w'.familia, w'.turno⟩], none⟩

/-- The dispatch `main` sets up: `MessageHandler(filters.TEXT &
~filters.COMMAND, handle_text)`.  A text message that is a bot command
reaches no handler of this bot (the only registered command is "/plan"), so
the update is dropped and nothing changes. -/
def route_text (st : BotState) (uid : Nat) (text : String) (storeFail : Bool) : TextOut :=
  if text ≠ "" ∧ ¬ isCommandText text then handle_text st uid text storeFail
  else ⟨st, [], [], none⟩

-- ### Association-list helpers (Python dict behaviour)

theorem lookup_cons_self {α β : Type} [BEq α] [LawfulBEq α] (a : α) (b : β)
    (ps : List (α × β)) : List.lookup a ((a, b) :: ps) = some b := by
  simp [List.lookup_cons]

theorem lookup_cons_ne {α β : Type} [BEq α] [LawfulBEq α] (a k : α) (b : β)
    (ps : List (α × β)) (h : k ≠ a) :
    List.lookup k ((a, b) :: ps) = List.lookup k ps := by
  simp [List.lookup_cons, beq_eq_false_iff_ne.mpr h]

theorem lookup_none_iff {α β : Type} [BEq α] [LawfulBEq α] (m : List (α × β)) (k : α) :
    List.lookup k m = none ↔ ∀ p ∈ m, p.1 ≠ k := by
  induction m with
  | nil => simp
  | cons p ps ih =>
    obtain ⟨a, b⟩ := p
    rcases eq_or_ne k a with rfl | hne
    · rw [lookup_cons_self]
      simp
    · rw [lookup_cons_ne _ _ _ _ hne, ih]
      constructor
      · intro h q hq
        rcases List.mem_cons.mp hq with rfl | hq2
        · exact fun hc => hne hc.symm
        · exact h q hq2
      · intro h q hq
        exact h q (List.mem_cons_of_mem _ hq)

theorem lookup_append_of_none {α β : Type} [BEq α] [LawfulBEq α] (m l : List (α × β)) (k : α)
    (h : List.lookup k m = none) : List.lookup k (m ++ l) = List.lookup k l := by
  induction m with
  | nil => rfl
  | cons p ps ih =>
    obtain ⟨a, b⟩ := p
    rcases eq_or_ne k a with rfl | hne
    · rw [lookup_cons_self] at h
      simp at h
    · rw [List.cons_append, lookup_cons_ne _ _ _ _ hne]
      rw [lookup_cons_ne _ _ _ _ hne] at h
      exact ih h

theorem popPending_lookup_self (m : List (Nat × PendingEdit)) (uid : Nat) :
    List.lookup uid (popPending m uid).2 = none := by
  unfold popPending
  rw [lookup_none_iff]
  intro p hp
  have h2 := (List.mem_filter.mp hp).2
  exact bne_iff_ne.mp h2

theorem popPending_keys_nodup (m : List (Nat × PendingEdit)) (uid : Nat)
    (h : (m.map Prod.fst).Nodup) : (((popPending m uid).2).map Prod.fst).Nodup := by
  unfold popPending
  exact List.Nodup.sublist ((List.filter_sublist m).map Prod.fst) h

theorem lookup_map_overwrite (m : List (Nat × PendingEdit)) (uid : Nat) (pe : PendingEdit)
    (h : (List.lookup uid m).isSome) :
    List.lookup uid (m.map (fun p => if p.1 == uid then (uid, pe) else p)) = some pe := by
  induction m with
  | nil => simp at h
  | cons p ps ih =>
    obtain ⟨a, b⟩ := p
    by_cases ha : a = uid
    · subst ha
      simp [List.lookup_cons]
    · have hba : ((a, b).1 == uid) = false := beq_eq_false_iff_ne.mpr ha
      rw [List.map_cons, hba]
      simp only [Bool.false_eq_true, if_false]
      rw [lookup_cons_ne _ _ _ _ (fun hc => ha hc.symm)]
      rw [lookup_cons_ne _ _ _ _ (fun hc => ha hc.symm)] at h
      exact ih h

theorem setPending_lookup_self (m : List (Nat × PendingEdit)) (uid : Nat) (pe : PendingEdit) :
    List.lookup uid (setPending m uid pe) = some pe := by
  unfold setPending
  split
  next hsome => exact lookup_map_overwrite m uid pe hsome
  next hnone =>
    have hn : List.lookup uid m = none := by
      cases hl : List.lookup uid m
      · rfl
      · rw [hl] at hnone
        simp at hnone
    rw [lookup_append_of_none _ _ _ hn, lookup_cons_self]

theorem setPending_keys_nodup (m : List (Nat × PendingEdit)) (uid : Nat) (pe : PendingEdit)
    (h : (m.map Prod.fst).Nodup) : ((setPending m uid pe).map Prod.fst).Nodup := by
  unfold setPending
  split
  next hsome =>
    have heq : (m.map (fun p => if p.1 == uid then (uid, pe) else p)).map Prod.fst
        = m.map Prod.fst := by
      rw [List.map_map]
      apply List.map_congr_left
      intro p _
      by_cases hp : p.1 = uid
      · simp [hp]
      · simp [beq_eq_false_iff_ne.mpr hp, hp]
    rw [heq]
    exact h
  next hnone =>
    have hn : List.lookup uid m = none := by
      cases hl : List.lookup uid m
      · rfl
      · rw [hl] at hnone
        simp at hnone
    rw [List.map_append]
    rw [List.nodup_append]
    refine ⟨h, by simp, ?_⟩
    intro a ha hb
    simp only [List.map_cons, List.map_nil, List.mem_singleton] at hb
    rw [List.mem_map] at ha
    obtain ⟨p, hp, hpa⟩ := ha
    exact (lookup_none_iff m uid).mp hn p hp (by rw [hpa, hb])

theorem lookup_setWeekField_self (weeks : List (String × WeekRec)) (k f : String)
    (v : Option String) :
    List.lookup k (setWeekField weeks k f v)
      = (List.lookup k weeks).map (fun w => w.setField f v) := by
  unfold setWeekField
  induction weeks with
  | nil => rfl
  | cons p ps ih =>
    obtain ⟨a, b⟩ := p
    rcases eq_or_ne k a with rfl | hne
    · rw [List.map_cons]
      have hc : ((k, b).1 == k) = true := by simp
      rw [hc]
      simp only [if_true]
      rw [lookup_cons_self, lookup_cons_self]
      rfl
    · rw [List.map_cons]
      by_cases hc : (a, b).1 = k
      · exact absurd hc.symm hne
      · rw [beq_eq_false_iff_ne.mpr hc]
        simp only [Bool.false_eq_true, if_false]
        rw [lookup_cons_ne _ _ _ _ hne, lookup_cons_ne _ _ _ _ hne]
        exact ih

-- ### Structure preserved by the DB overlay

theorem overlay_cons (tbl : List (String × WeekRec)) (r : DBRow) (rs : List DBRow) :
    overlay tbl (r :: rs) =
      overlay (tbl.map (fun kw =>
        if kw.1 = r.week_start.isoformat then
          (kw.1, { kw.2 with familia := r.familia, turno := r.turno })
        else kw)) rs := rfl

theorem overlay_starts (tbl : List (String × WeekRec)) (rows : List DBRow) :
    (overlay tbl rows).map (fun kw => kw.2.start) = tbl.map (fun kw => kw.2.start) := by
  induction rows generalizing tbl with
  | nil => rfl
  | cons r rs ih =>
    rw [overlay_cons, ih, List.map_map]
    apply List.map_congr_left
    intro kw _
    by_cases h : kw.1 = r.week_start.isoformat <;> simp [h]

theorem overlay_mem (tbl : List (String × WeekRec)) (rows : List DBRow) (kw : String × WeekRec)
    (h : kw ∈ overlay tbl rows) :
    ∃ kw' ∈ tbl, kw.1 = kw'.1 ∧ kw.2.start = kw'.2.start ∧ kw.2.end_ = kw'.2.end_ := by
  induction rows generalizing tbl with
  | nil => exact ⟨kw, h, rfl, rfl, rfl⟩
  | cons r rs ih =>
    rw [overlay_cons] at h
    obtain ⟨kw', hmem', h1, h2, h3⟩ := ih _ h
    rw [List.mem_map] at hmem'
    obtain ⟨kw0, hk0, hg⟩ := hmem'
    by_cases hc : kw0.1 = r.week_start.isoformat
    · rw [if_pos hc] at hg
      exact ⟨kw0, hk0, by rw [h1, ← hg], by rw [h2, ← hg], by rw [h3, ← hg]⟩
    · rw [if_neg hc] at hg
      exact ⟨kw0, hk0, by rw [h1, ← hg], by rw [h2, ← hg], by rw [h3, ← hg]⟩

-- ### The generation loop

theorem genWeeksLoop_neg (fuel : Nat) (s e : Date) (h : e.ord < s.ord) :
    genWeeksLoop fuel s e = [] := by
  cases fuel with
  | zero => rfl
  | succ f =>
    simp only [genWeeksLoop]
    rw [if_neg (by omega)]

theorem genWeeksLoop_pos (fuel : Nat) (s e : Date) (h : s.ord ≤ e.ord) :
    genWeeksLoop (fuel + 1) s e =
      (s.isoformat, ⟨s, addDays s 6, none, none⟩) :: genWeeksLoop fuel (addDays s 7) e := by
  simp only [genWeeksLoop]
  rw [if_pos h]

theorem genWeeksLoop_mem (fuel : Nat) (s e : Date) (hs : s.valid) (kw : String × WeekRec)
    (h : kw ∈ genWeeksLoop fuel s e) :
    ∃ t : Date, kw = (t.isoformat, ⟨t, addDays t 6, none, none⟩) ∧ t.valid ∧
      s.ord ≤ t.ord ∧ t.ord ≤ e.ord ∧ t.ord % 7 = s.ord % 7 := by
  induction fuel generalizing s with
  | zero => simp [genWeeksLoop] at h
  | succ f ih =>
    by_cases hle : s.ord ≤ e.ord
    · rw [genWeeksLoop_pos f s e hle] at h
      rcases List.mem_cons.mp h with rfl | h2
      · exact ⟨s, rfl, hs, le_refl _, hle, rfl⟩
      · have hs7 : (addDays s 7).valid := addDays_valid s 7 hs
        have ho7 : (addDays s 7).ord = s.ord + 7 := addDays_ord s 7 hs
        obtain ⟨t, ht, htv, h1, h2', h3⟩ := ih (addDays s 7) hs7 h2
        exact ⟨t, ht, htv, by omega, h2', by omega⟩
    · rw [genWeeksLoop_neg _ _ _ (by omega)] at h
      simp at h

theorem genWeeksLoop_chain (fuel : Nat) (s e : Date) (hs : s.valid) :
    List.Chain' (fun a b : String × WeekRec => b.2.start.ord = a.2.start.ord + 7)
      (genWeeksLoop fuel s e) := by
  induction fuel generalizing s with
  | zero => simp [genWeeksLoop]
  | succ f ih =>
    by_cases hle : s.ord ≤ e.ord
    · rw [genWeeksLoop_pos f s e hle]
      have hs7 : (addDays s 7).valid := addDays_valid s 7 hs
      have ho7 : (addDays s 7).ord = s.ord + 7 := addDays_ord s 7 hs
      rw [List.chain'_cons']
      refine ⟨?_, ih (addDays s 7) hs7⟩
      intro y hy
      cases f with
      | zero => simp [genWeeksLoop] at hy
      | succ f2 =>
        by_cases hle2 : (addDays s 7).ord ≤ e.ord
        · rw [genWeeksLoop_pos f2 _ _ hle2] at hy
          simp only [List.head?_cons, Option.mem_def, Option.some.injEq] at hy
          rw [← hy]
          simpa using ho7
        · rw [genWeeksLoop_neg _ _ _ (by omega)] at hy
          simp at hy
    · rw [genWeeksLoop_neg _ _ _ (by omega)]
      simp

theorem genWeeksLoop_last (fuel : Nat) (s e : Date) (hs : s.valid) (hle : s.ord ≤ e.ord)
    (hfuel : e.ord < s.ord + fuel) :
    ∃ kwl, (genWeeksLoop fuel s e).getLast? = some kwl ∧
      kwl.2.start.ord ≤ e.ord ∧ e.ord < kwl.2.start.ord + 7 := by
  induction fuel generalizing s with
  | zero => omega
  | succ f ih =>
    rw [genWeeksLoop_pos f s e hle]
    have hs7 : (addDays s 7).valid := addDays_valid s 7 hs
    have ho7 : (addDays s 7).ord = s.ord + 7 := addDays_ord s 7 hs
    by_cases hle2 : (addDays s 7).ord ≤ e.ord
    · obtain ⟨kwl, hl, h1, h2⟩ := ih (addDays s 7) hs7 hle2 (by omega)
      refine ⟨kwl, ?_, h1, h2⟩
      cases hrest : genWeeksLoop f (addDays s 7) e with
      | nil =>
        rw [hrest] at hl
        simp at hl
      | cons b l2 =>
        rw [hrest] at hl
        rw [List.getLast?_cons_cons]
        exact hl
    · rw [genWeeksLoop_neg f _ _ (by omega)]
      exact ⟨(s.isoformat, ⟨s, addDays s 6, none, none⟩), List.getLast?_singleton _,
        by simpa using hle, by simp; omega⟩

-- ### Claim C1

/-- Claim C1: for every value of `today` (any valid date) and any DB
contents, `generate_weeks` produces a non-empty table whose week starts form
a strictly ascending sequence exactly 7 days apart, each start a Monday,
beginning at the Monday of the week containing `today` (`today` minus
`today.weekday()` days) and ending at the last Monday on or before
`cutoff(today)`; every entry's `weekEnd` equals `weekStart + 6` days. -/
theorem C1_generate_weeks_calendar (w : List (String × WeekRec)) (today : Date)
    (db : List DBRow) (hv : today.valid) :
    generate_weeks w today db ≠ [] ∧
    ((generate_weeks w today db).map (fun kw => kw.2.start)).head?
      = some (subDays today (pyWeekday today)) ∧
    (subDays today (pyWeekday today)).ord = today.ord - pyWeekday today ∧
    List.Chain' (fun a b : Date => b.ord = a.ord + 7)
      ((generate_weeks w today db).map (fun kw => kw.2.start)) ∧
    (∀ d ∈ (generate_weeks w today db).map (fun kw => kw.2.start),
      d.valid ∧ pyWeekday d = 0) ∧
    (∀ kw ∈ generate_weeks w today db,
      kw.2.end_ = addDays kw.2.start 6 ∧ kw.2.end_.ord = kw.2.start.ord + 6) ∧
    (∃ last, ((generate_weeks w today db).map (fun kw => kw.2.start)).getLast? = some last ∧
      last.ord ≤ (cutoffDate today).ord ∧ (cutoffDate today).ord < last.ord + 7) := by
  have hop : 1 ≤ today.ord := date_ord_pos today hv
  have hwddef : pyWeekday today = (today.ord - 1) % 7 := rfl
  have hwd2 : pyWeekday today + 1 ≤ today.ord := by rw [hwddef]; omega
  obtain ⟨hsv, hso⟩ := subDays_valid_ord today (pyWeekday today) hv hwd2
  have hev : (cutoffDate today).valid := cutoffDate_valid today hv
  have hge : today.ord ≤ (cutoffDate today).ord := cutoffDate_ge today hv
  have hsp : 1 ≤ (subDays today (pyWeekday today)).ord := by omega
  have hle : (subDays today (pyWeekday today)).ord ≤ (cutoffDate today).ord := by omega
  have hgen : generate_weeks w today db =
      overlay (genWeeksLoop ((cutoffDate today).ord + 1) (subDays today (pyWeekday today))
        (cutoffDate today)) db := rfl
  have hloop := genWeeksLoop_pos (cutoffDate today).ord (subDays today (pyWeekday today))
    (cutoffDate today) hle
  have hstarts : (generate_weeks w today db).map (fun kw => kw.2.start)
      = (genWeeksLoop ((cutoffDate today).ord + 1) (subDays today (pyWeekday today))
          (cutoffDate today)).map (fun kw => kw.2.start) := by
    rw [hgen]
    exact overlay_starts _ _
  have hne : generate_weeks w today db ≠ [] := by
    intro hnil
    have h0 : ((genWeeksLoop ((cutoffDate today).ord + 1) (subDays today (pyWeekday today))
        (cutoffDate today)).map (fun kw => kw.2.start)) = [] := by
      rw [← hstarts, hnil]
      rfl
    rw [hloop] at h0
    simp at h0
  have hhead : ((generate_weeks w today db).map (fun kw => kw.2.start)).head?
      = some (subDays today (pyWeekday today)) := by
    rw [hstarts, hloop]
    rfl
  have hchain : List.Chain' (fun a b : Date => b.ord = a.ord + 7)
      ((generate_weeks w today db).map (fun kw => kw.2.start)) := by
    rw [hstarts, List.chain'_map]
    exact genWeeksLoop_chain _ _ _ hsv
  have hmon : ∀ d ∈ (generate_weeks w today db).map (fun kw => kw.2.start),
      d.valid ∧ pyWeekday d = 0 := by
    intro d hd
    rw [hstarts] at hd
    rw [List.mem_map] at hd
    obtain ⟨kw, hkw, hdd⟩ := hd
    obtain ⟨t, hteq, htv, _, _, hmod⟩ := genWeeksLoop_mem _ _ _ hsv kw hkw
    have hdt : d = t := by rw [← hdd, hteq]
    subst hdt
    refine ⟨htv, ?_⟩
    have hto : 1 ≤ d.ord := date_ord_pos d htv
    show (d.ord - 1) % 7 = 0
    omega
  have hends : ∀ kw ∈ generate_weeks w today db,
      kw.2.end_ = addDays kw.2.start 6 ∧ kw.2.end_.ord = kw.2.start.ord + 6 := by
    intro kw hkw
    rw [hgen] at hkw
    obtain ⟨kw', hkw', h1, h2, h3⟩ := overlay_mem _ _ _ hkw
    obtain ⟨t, hteq, htv, _, _, _⟩ := genWeeksLoop_mem _ _ _ hsv kw' hkw'
    have hst : kw'.2.start = t := by rw [hteq]
    have hen : kw'.2.end_ = addDays t 6 := by rw [hteq]
    refine ⟨by rw [h3, h2, hst, hen], ?_⟩
    rw [h3, h2, hst, hen, addDays_ord t 6 htv]
  obtain ⟨kwl, hlast, hl1, hl2⟩ := genWeeksLoop_last ((cutoffDate today).ord + 1)
    (subDays today (pyWeekday today)) (cutoffDate today) hsv hle (by omega)
  have hlast2 : ((generate_weeks w today db).map (fun kw => kw.2.start)).getLast?
      = some kwl.2.start := by
    rw [hstarts, List.getLast?_map, hlast]
    rfl
  exact ⟨hne, hhead, hso, hchain, hmon, hends, ⟨kwl.2.start, hlast2, hl1, hl2⟩⟩

theorem C1_generate_weeks_calendar_witness :
    generate_weeks [] ⟨2024, 3, 15⟩ [] ≠ [] ∧
    ((generate_weeks [] ⟨2024, 3, 15⟩ []).map (fun kw => kw.2.start)).head?
      = some (subDays ⟨2024, 3, 15⟩ (pyWeekday ⟨2024, 3, 15⟩)) ∧
    (subDays ⟨2024, 3, 15⟩ (pyWeekday ⟨2024, 3, 15⟩)).ord
      = (Date.mk 2024 3 15).ord - pyWeekday ⟨2024, 3, 15⟩ ∧
    List.Chain' (fun a b : Date => b.ord = a.ord + 7)
      ((generate_weeks [] ⟨2024, 3, 15⟩ []).map (fun kw => kw.2.start)) ∧
    (∀ d ∈ (generate_weeks [] ⟨2024, 3, 15⟩ []).map (fun kw => kw.2.start),
      d.valid ∧ pyWeekday d = 0) ∧
    (∀ kw ∈ generate_weeks [] ⟨2024, 3, 15⟩ [],
      kw.2.end_ = addDays kw.2.start 6 ∧ kw.2.end_.ord = kw.2.start.ord + 6) ∧
    (∃ last, ((generate_weeks [] ⟨2024, 3, 15⟩ []).map (fun kw => kw.2.start)).getLast?
        = some last ∧
      last.ord ≤ (cutoffDate ⟨2024, 3, 15⟩).ord ∧
        (cutoffDate ⟨2024, 3, 15⟩).ord < last.ord + 7) :=
  C1_generate_weeks_calendar [] ⟨2024, 3, 15⟩ [] (by decide)

-- ### Claim C8

/-- Claim C8: rebuilding the week table twice with the same `today` and the
same persisted records yields the same table as rebuilding once —
`weeks.clear()` makes the result depend only on `today` and the DB rows, so
the rebuild is idempotent. -/
theorem C8_generate_weeks_idempotent (w : List (String × WeekRec)) (today : Date)
    (db : List DBRow) :
    generate_weeks (generate_weeks w today db) today db = generate_weeks w today db := rfl

-- ### Claim C9

/-- Claim C9: the cutoff computed by `generate_weeks` is June 30 of
`today.year` when `today.month ≤ 6` and June 30 of `today.year + 1`
otherwise, and in both cases it is on or after `today`. -/
theorem C9_cutoff_spec (today : Date) (hv : today.valid) :
    (today.month ≤ 6 → cutoffDate today = ⟨today.year, 6, 30⟩) ∧
    (6 < today.month → cutoffDate today = ⟨today.year + 1, 6, 30⟩) ∧
    today.ord ≤ (cutoffDate today).ord := by
  refine ⟨fun h => ?_, fun h => ?_, cutoffDate_ge today hv⟩
  · unfold cutoffDate
    rw [if_pos h]
  · unfold cutoffDate
    rw [if_neg (by omega)]

theorem C9_cutoff_spec_witness :
    ((Date.mk 2024 11 3).month ≤ 6 → cutoffDate ⟨2024, 11, 3⟩ = ⟨(Date.mk 2024 11 3).year, 6, 30⟩) ∧
    (6 < (Date.mk 2024 11 3).month →
      cutoffDate ⟨2024, 11, 3⟩ = ⟨(Date.mk 2024 11 3).year + 1, 6, 30⟩) ∧
    (Date.mk 2024 11 3).ord ≤ (cutoffDate ⟨2024, 11, 3⟩).ord :=
  C9_cutoff_spec ⟨2024, 11, 3⟩ (by decide)

-- ### Claims C6 and C7 (rendering)

theorem buildEntries_eq (show_all : Bool) (today : Date) (weeks : List (String × WeekRec)) :
    buildEntries show_all today weeks
      = (weeks.insertionSort keyLe).filter
          (fun kw => show_all || decide (kw.2.start.ord ≤ (addDays today 84).ord)) := rfl

/-- The invariant every reachable week table satisfies: keys are unique and
each key is the ISO string of its record's (valid, year-bounded) start. -/
def TableWF (weeks : List (String × WeekRec)) : Prop :=
  (weeks.map Prod.fst).Nodup ∧
    ∀ kw ∈ weeks, kw.1 = kw.2.start.isoformat ∧ kw.2.start.valid ∧ kw.2.start.year ≤ 9999

instance (weeks : List (String × WeekRec)) : Decidable (TableWF weeks) := by
  unfold TableWF
  infer_instance

/-- Claim C6: for every week table satisfying the key invariant, in either
mode and regardless of the order in which the table's entries were inserted,
the rendered week rows are in strictly ascending `weekStart` order; moreover
lexicographic comparison of the ISO keys coincides with chronological
comparison of the starts. -/
theorem C6_render_sorted (show_all : Bool) (today : Date)
    (weeks : List (String × WeekRec)) (hwf : TableWF weeks) :
    List.Pairwise (fun a b : String × WeekRec => a.2.start.ord < b.2.start.ord)
      (buildEntries show_all today weeks) ∧
    ∀ kw1 ∈ weeks, ∀ kw2 ∈ weeks, (kw1.1 < kw2.1 ↔ kw1.2.start.ord < kw2.2.start.ord) := by
  obtain ⟨hnodup, hinv⟩ := hwf
  have hiso : ∀ kw1 ∈ weeks, ∀ kw2 ∈ weeks,
      (kw1.1 < kw2.1 ↔ kw1.2.start.ord < kw2.2.start.ord) := by
    intro kw1 h1 kw2 h2
    obtain ⟨hk1, hv1, hy1⟩ := hinv kw1 h1
    obtain ⟨hk2, hv2, hy2⟩ := hinv kw2 h2
    rw [hk1, hk2]
    exact iso_lt_iff_ord _ _ hv1 hv2 hy1 hy2
  refine ⟨?_, hiso⟩
  have hperm := List.perm_insertionSort keyLe weeks
  have hsorted : List.Pairwise keyLe (weeks.insertionSort keyLe) :=
    List.sorted_insertionSort keyLe weeks
  have hnodup2 : ((weeks.insertionSort keyLe).map Prod.fst).Nodup :=
    ((hperm.map Prod.fst).nodup_iff).mpr hnodup
  have hne : List.Pairwise (fun a b : String × WeekRec => a.1 ≠ b.1)
      (weeks.insertionSort keyLe) := List.pairwise_map.mp hnodup2
  have hlt : List.Pairwise (fun a b : String × WeekRec => a.2.start.ord < b.2.start.ord)
      (weeks.insertionSort keyLe) := by
    refine List.Pairwise.imp_of_mem ?_ (hsorted.and hne)
    intro a b ha hb hab
    have hma : a ∈ weeks := hperm.mem_iff.mp ha
    have hmb : b ∈ weeks := hperm.mem_iff.mp hb
    have hlt1 : a.1 < b.1 := lt_of_le_of_ne hab.1 hab.2
    exact (hiso a hma b hmb).mp hlt1
  rw [buildEntries_eq]
  exact List.Pairwise.sublist (List.filter_sublist _) hlt

theorem C6_render_sorted_witness :
    List.Pairwise (fun a b : String × WeekRec => a.2.start.ord < b.2.start.ord)
      (buildEntries false ⟨2024, 3, 15⟩
        [("2024-03-18", ⟨⟨2024, 3, 18⟩, ⟨2024, 3, 24⟩, none, some ""⟩),
         ("2024-03-11", ⟨⟨2024, 3, 11⟩, ⟨2024, 3, 17⟩, some "Ana", none⟩)]) ∧
    ∀ kw1 ∈ [("2024-03-18", (⟨⟨2024, 3, 18⟩, ⟨2024, 3, 24⟩, none, some ""⟩ : WeekRec)),
         ("2024-03-11", ⟨⟨2024, 3, 11⟩, ⟨2024, 3, 17⟩, some "Ana", none⟩)],
      ∀ kw2 ∈ [("2024-03-18", (⟨⟨2024, 3, 18⟩, ⟨2024, 3, 24⟩, none, some ""⟩ : WeekRec)),
         ("2024-03-11", ⟨⟨2024, 3, 11⟩, ⟨2024, 3, 17⟩, some "Ana", none⟩)],
      (kw1.1 < kw2.1 ↔ kw1.2.start.ord < kw2.2.start.ord) :=
  C6_render_sorted false ⟨2024, 3, 15⟩
    [("2024-03-18", ⟨⟨2024, 3, 18⟩, ⟨2024, 3, 24⟩, none, some ""⟩),
     ("2024-03-11", ⟨⟨2024, 3, 11⟩, ⟨2024, 3, 17⟩, some "Ana", none⟩)] (by decide)

/-- Claim C7: rendering in windowed mode keeps exactly the weeks whose start
is at most `today + 84` days (12 weeks) and drops every week starting later;
full mode keeps every week of the table. -/
theorem C7_window (show_all : Bool) (today : Date) (weeks : List (String × WeekRec))
    (hv : today.valid) (kw : String × WeekRec) (hmem : kw ∈ weeks) :
    (addDays today 84).ord = today.ord + 84 ∧
    (kw ∈ buildEntries show_all today weeks ↔
      (show_all = true ∨ kw.2.start.ord ≤ today.ord + 84)) := by
  have ho := addDays_ord today 84 hv
  refine ⟨ho, ?_⟩
  rw [buildEntries_eq, List.mem_filter]
  constructor
  · rintro ⟨hmem2, hcond⟩
    rw [Bool.or_eq_true, decide_eq_true_eq] at hcond
    rcases hcond with h | h
    · exact Or.inl h
    · right
      omega
  · intro h
    refine ⟨(List.perm_insertionSort keyLe weeks).mem_iff.mpr hmem, ?_⟩
    rw [Bool.or_eq_true, decide_eq_true_eq]
    rcases h with h | h
    · exact Or.inl h
    · right
      omega

theorem C7_window_witness :
    (addDays ⟨2024, 3, 15⟩ 84).ord = (Date.mk 2024 3 15).ord + 84 ∧
    (("2024-03-11", (⟨⟨2024, 3, 11⟩, ⟨2024, 3, 17⟩, none, none⟩ : WeekRec)) ∈
        buildEntries false ⟨2024, 3, 15⟩
          [("2024-03-11", ⟨⟨2024, 3, 11⟩, ⟨2024, 3, 17⟩, none, none⟩)] ↔
      (false = true ∨ (Date.mk 2024 3 11).ord ≤ (Date.mk 2024 3 15).ord + 84)) :=
  C7_window false ⟨2024, 3, 15⟩ [("2024-03-11", ⟨⟨2024, 3, 11⟩, ⟨2024, 3, 17⟩, none, none⟩)]
    (by decide) ("2024-03-11", ⟨⟨2024, 3, 11⟩, ⟨2024, 3, 17⟩, none, none⟩) (by decide)

-- ### Handler characterisations

theorem splitColon1_no_colon (pre : List Char) (hpre : ':' ∉ pre) (post : List Char) :
    splitColon1 (pre ++ ':' :: post) = (pre, some post) := by
  induction pre with
  | nil => simp [splitColon1]
  | cons c cs ih =>
    have hc : ¬ c = ':' := fun h => hpre (by rw [h]; exact List.mem_cons_self _ _)
    rw [List.cons_append]
    simp only [splitColon1, if_neg hc, ih (fun h => hpre (List.mem_cons_of_mem _ h))]

/-- What the familia/turno branch of `handle_button` does on a well-formed
callback string. -/
theorem handle_button_edit (st : BotState) (uid : Nat) (f key : String) (today : Date)
    (hf : f = "familia" ∨ f = "turno") :
    handle_button st uid (f ++ ":" ++ key) today =
      (match List.lookup key st.weeks with
        | none => ⟨{ st with pending_edits := setPending st.pending_edits uid ⟨key, f⟩ },
            [], [], some (.keyError key)⟩
        | some w => ⟨{ st with pending_edits := setPending st.pending_edits uid ⟨key, f⟩ },
            [promptMsg f w], [], none⟩) := by
  have hnc : ':' ∉ f.data := by
    rcases hf with rfl | rfl <;> decide
  have hdata : (f ++ ":" ++ key).data = f.data ++ ':' :: key.data := by
    rw [String.data_append, String.data_append]
    have h1 : (":" : String).data = [':'] := by decide
    rw [h1, List.append_assoc]
    rfl
  have hmkf : (⟨f.data⟩ : String) = f := rfl
  have hmkk : (⟨key.data⟩ : String) = key := rfl
  unfold handle_button
  rw [hdata, splitColon1_no_colon f.data hnc key.data]
  simp only [hmkf, hmkk]
  rw [if_pos hf]

theorem route_text_delivers (st : BotState) (uid : Nat) (text : String) (storeFail : Bool)
    (ht1 : text ≠ "") (ht2 : isCommandText text = false) :
    route_text st uid text storeFail = handle_text st uid text storeFail := by
  unfold route_text
  rw [if_pos ⟨ht1, fun h => by rw [ht2] at h; exact Bool.false_ne_true h⟩]

/-- What `handle_text` does when the pending week is present and its key
parses back. -/
theorem handle_text_spec (st : BotState) (uid : Nat) (text : String) (storeFail : Bool)
    (pe : PendingEdit) (hpend : List.lookup uid st.pending_edits = some pe)
    (w : WeekRec) (hk : List.lookup pe.week st.weeks = some w)
    (wsd : Date) (hparse : parseIso pe.week = some wsd) :
    handle_text st uid text storeFail =
      (let newVal : Option String :=
        if pyLower (pyStrip text) = "/remove" then none else some (pyStrip text)
      let st2 : BotState :=
        ⟨setWeekField st.weeks pe.week pe.field newVal, (popPending st.pending_edits uid).2⟩
      if storeFail then ⟨st2, [], [], some .storeError⟩
      else ⟨st2, ["✅ Planificación actualizada:"],
        [⟨wsd, (w.setField pe.field newVal).familia, (w.setField pe.field newVal).turno⟩],
        none⟩) := by
  unfold handle_text
  simp only [hpend, hk, hparse]

/-- After `handle_text` the user is always left with no pending edit, whatever the
message and however stale the pending reference was. -/
theorem handle_text_consumes (st : BotState) (uid : Nat) (text : String) (storeFail : Bool) :
    List.lookup uid (handle_text st uid text storeFail).state.pending_edits = none ∨
      ((handle_text st uid text storeFail).state.pending_edits = st.pending_edits ∧
        List.lookup uid st.pending_edits = none) := by
  unfold handle_text
  cases hp : List.lookup uid st.pending_edits with
  | none => exact Or.inr ⟨rfl, rfl⟩
  | some edit =>
    left
    simp only
    cases hw : List.lookup edit.week st.weeks with
    | none => simpa using popPending_lookup_self st.pending_edits uid
    | some wr =>
      cases hpi : parseIso edit.week with
      | none => simpa [hw, hpi] using popPending_lookup_self st.pending_edits uid
      | some wsd =>
        cases storeFail <;>
          simpa [hw, hpi] using popPending_lookup_self st.pending_edits uid

/-- The handler `handle_text` preserves uniqueness of the per-user pending-edit keys. -/
theorem handle_text_keys_nodup (st : BotState) (uid : Nat) (text : String) (storeFail : Bool)
    (h : (st.pending_edits.map Prod.fst).Nodup) :
    ((handle_text st uid text storeFail).state.pending_edits.map Prod.fst).Nodup := by
  unfold handle_text
  cases hp : List.lookup uid st.pending_edits with
  | none => exact h
  | some edit =>
    simp only
    cases hw : List.lookup edit.week st.weeks with
    | none => simpa using popPending_keys_nodup st.pending_edits uid h
    | some wr =>
      cases hpi : parseIso edit.week with
      | none => simpa [hw, hpi] using popPending_keys_nodup st.pending_edits uid h
      | some wsd =>
        cases storeFail <;>
          simpa [hw, hpi] using popPending_keys_nodup st.pending_edits uid h

-- ### Claim C2

/-- Claim C2 (amended): a week key absent from the current table makes both
handlers fail with an *uncaught* `KeyError` — no message is sent to the user
(the code has no "this week is no longer in view" handling); the text handler
has moreover already consumed the pending edit before failing, and the
button handler has already recorded the stale pending edit. -/
theorem C2_stale_key_keyerror (st : BotState) (uid : Nat) (key : String) (today : Date)
    (hmiss : List.lookup key st.weeks = none)
    (pe : PendingEdit) (hpend : List.lookup uid st.pending_edits = some pe)
    (hweek : pe.week = key)
    (text : String) (storeFail : Bool) (ht1 : text ≠ "") (ht2 : isCommandText text = false) :
    ((handle_button st uid ("familia" ++ ":" ++ key) today).err = some (.keyError key) ∧
      (handle_button st uid ("familia" ++ ":" ++ key) today).sent = [] ∧
      (handle_button st uid ("familia" ++ ":" ++ key) today).edited = [] ∧
      List.lookup uid
          (handle_button st uid ("familia" ++ ":" ++ key) today).state.pending_edits
        = some ⟨key, "familia"⟩) ∧
    ((route_text st uid text storeFail).err = some (.keyError key) ∧
      (route_text st uid text storeFail).sent = [] ∧
      (route_text st uid text storeFail).upserts = [] ∧
      (route_text st uid text storeFail).state.weeks = st.weeks ∧
      List.lookup uid (route_text st uid text storeFail).state.pending_edits = none) := by
  have hb := handle_button_edit st uid "familia" key today (Or.inl rfl)
  rw [hmiss] at hb
  have htx : handle_text st uid text storeFail =
      ⟨⟨st.weeks, (popPending st.pending_edits uid).2⟩, [], [], some (.keyError key)⟩ := by
    unfold handle_text
    simp only [hpend, hweek, hmiss]
  have hroute := route_text_delivers st uid text storeFail ht1 ht2
  refine ⟨⟨by simp only [hb], by simp only [hb], by simp only [hb], ?_⟩, ?_⟩
  · simp only [hb]
    exact setPending_lookup_self _ _ _
  · rw [hroute, htx]
    exact ⟨rfl, rfl, rfl, rfl, popPending_lookup_self _ _⟩

theorem C2_stale_key_keyerror_witness :
    ((handle_button ⟨[("2024-03-11", ⟨⟨2024, 3, 11⟩, ⟨2024, 3, 17⟩, none, none⟩)],
        [(7, ⟨"2024-01-01", "familia"⟩)]⟩ 7 ("familia" ++ ":" ++ "2024-01-01")
        ⟨2024, 3, 15⟩).err = some (.keyError "2024-01-01") ∧
      (handle_button ⟨[("2024-03-11", ⟨⟨2024, 3, 11⟩, ⟨2024, 3, 17⟩, none, none⟩)],
        [(7, ⟨"2024-01-01", "familia"⟩)]⟩ 7 ("familia" ++ ":" ++ "2024-01-01")
        ⟨2024, 3, 15⟩).sent = [] ∧
      (handle_button ⟨[("2024-03-11", ⟨⟨2024, 3, 11⟩, ⟨2024, 3, 17⟩, none, none⟩)],
        [(7, ⟨"2024-01-01", "familia"⟩)]⟩ 7 ("familia" ++ ":" ++ "2024-01-01")
        ⟨2024, 3, 15⟩).edited = [] ∧
      List.lookup 7 (handle_button ⟨[("2024-03-11", ⟨⟨2024, 3, 11⟩, ⟨2024, 3, 17⟩, none, none⟩)],
        [(7, ⟨"2024-01-01", "familia"⟩)]⟩ 7 ("familia" ++ ":" ++ "2024-01-01")
        ⟨2024, 3, 15⟩).state.pending_edits = some ⟨"2024-01-01", "familia"⟩) ∧
    ((route_text ⟨[("2024-03-11", ⟨⟨2024, 3, 11⟩, ⟨2024, 3, 17⟩, none, none⟩)],
        [(7, ⟨"2024-01-01", "familia"⟩)]⟩ 7 "Ana" false).err
        = some (.keyError "2024-01-01") ∧
      (route_text ⟨[("2024-03-11", ⟨⟨2024, 3, 11⟩, ⟨2024, 3, 17⟩, none, none⟩)],
        [(7, ⟨"2024-01-01", "familia"⟩)]⟩ 7 "Ana" false).sent = [] ∧
      (route_text ⟨[("2024-03-11", ⟨⟨2024, 3, 11⟩, ⟨2024, 3, 17⟩, none, none⟩)],
        [(7, ⟨"2024-01-01", "familia"⟩)]⟩ 7 "Ana" false).upserts = [] ∧
      (route_text ⟨[("2024-03-11", ⟨⟨2024, 3, 11⟩, ⟨2024, 3, 17⟩, none, none⟩)],
        [(7, ⟨"2024-01-01", "familia"⟩)]⟩ 7 "Ana" false).state.weeks
        = [("2024-03-11", ⟨⟨2024, 3, 11⟩, ⟨2024, 3, 17⟩, none, none⟩)] ∧
      List.lookup 7 (route_text ⟨[("2024-03-11", ⟨⟨2024, 3, 11⟩, ⟨2024, 3, 17⟩, none, none⟩)],
        [(7, ⟨"2024-01-01", "familia"⟩)]⟩ 7 "Ana" false).state.pending_edits = none) :=
  C2_stale_key_keyerror
    ⟨[("2024-03-11", ⟨⟨2024, 3, 11⟩, ⟨2024, 3, 17⟩, none, none⟩)],
      [(7, ⟨"2024-01-01", "familia"⟩)]⟩ 7 "2024-01-01" ⟨2024, 3, 15⟩ (by decide)
    ⟨"2024-01-01", "familia"⟩ (by decide) rfl "Ana" false (by decide) (by decide)

/-- The C2 claim as stated is false on the code: with only the week
2024-03-11 in view, a tap referencing the vanished week 2024-01-01 ends in an
exception (the `KeyError` escapes) and no message is sent to the user. -/
theorem C2_counterexample :
    (handle_button ⟨[("2024-03-11", ⟨⟨2024, 3, 11⟩, ⟨2024, 3, 17⟩, none, none⟩)], []⟩ 7
        "familia:2024-01-01" ⟨2024, 3, 15⟩).err ≠ none ∧
    (handle_button ⟨[("2024-03-11", ⟨⟨2024, 3, 11⟩, ⟨2024, 3, 17⟩, none, none⟩)], []⟩ 7
        "familia:2024-01-01" ⟨2024, 3, 15⟩).sent = [] := by
  decide

-- ### Claim C3

/-- Claim C3 is violated by the code: the prompt tells the user to send
"/remove", but `main` registers `handle_text` behind `filters.TEXT &
~filters.COMMAND`, and "/remove" is a bot command, so the removal keyword is
never delivered to `handle_text`.  The update is dropped entirely: the state
(including the pending edit) is unchanged, no field is set to null, and no
upsert is issued. -/
theorem C3_remove_never_delivered (st : BotState) (uid : Nat) (storeFail : Bool)
    (pe : PendingEdit) (hpend : List.lookup uid st.pending_edits = some pe) :
    route_text st uid "/remove" storeFail = ⟨st, [], [], none⟩ ∧
      List.lookup uid (route_text st uid "/remove" storeFail).state.pending_edits
        = some pe := by
  have hcmd : isCommandText "/remove" = true := by decide
  have hroute : route_text st uid "/remove" storeFail = ⟨st, [], [], none⟩ := by
    unfold route_text
    rw [if_neg (fun h => h.2 hcmd)]
  exact ⟨hroute, by rw [hroute]; exact hpend⟩

theorem C3_remove_never_delivered_witness :
    route_text ⟨[("2024-03-11", ⟨⟨2024, 3, 11⟩, ⟨2024, 3, 17⟩, some "Ana", none⟩)],
        [(7, ⟨"2024-03-11", "familia"⟩)]⟩ 7 "/remove" false
      = ⟨⟨[("2024-03-11", ⟨⟨2024, 3, 11⟩, ⟨2024, 3, 17⟩, some "Ana", none⟩)],
          [(7, ⟨"2024-03-11", "familia"⟩)]⟩, [], [], none⟩ ∧
    List.lookup 7 (route_text ⟨[("2024-03-11", ⟨⟨2024, 3, 11⟩, ⟨2024, 3, 17⟩, some "Ana", none⟩)],
        [(7, ⟨"2024-03-11", "familia"⟩)]⟩ 7 "/remove" false).state.pending_edits
      = some ⟨"2024-03-11", "familia"⟩ :=
  C3_remove_never_delivered
    ⟨[("2024-03-11", ⟨⟨2024, 3, 11⟩, ⟨2024, 3, 17⟩, some "Ana", none⟩)],
      [(7, ⟨"2024-03-11", "familia"⟩)]⟩ 7 false ⟨"2024-03-11", "familia"⟩ (by decide)

-- ### Claim C4

/-- Claim C4 (amended): when the store upsert fails inside `handle_text`, the
failure propagates out of the handler uncaught — there is no try/except, so
no user-facing notification is produced — while the in-memory week table
already holds the attempted value, because the mutation precedes the
persistence call. -/
theorem C4_store_failure_optimistic (st : BotState) (uid : Nat) (text : String)
    (pe : PendingEdit) (hpend : List.lookup uid st.pending_edits = some pe)
    (w : WeekRec) (hk : List.lookup pe.week st.weeks = some w)
    (wsd : Date) (hparse : parseIso pe.week = some wsd)
    (ht1 : text ≠ "") (ht2 : isCommandText text = false) :
    (route_text st uid text true).err = some .storeError ∧
    (route_text st uid text true).sent = [] ∧
    (route_text st uid text true).upserts = [] ∧
    List.lookup pe.week (route_text st uid text true).state.weeks
      = some (w.setField pe.field
          (if pyLower (pyStrip text) = "/remove" then none else some (pyStrip text))) := by
  have hroute := route_text_delivers st uid text true ht1 ht2
  have hspec := handle_text_spec st uid text true pe hpend w hk wsd hparse
  rw [hroute, hspec]
  refine ⟨rfl, rfl, rfl, ?_⟩
  show List.lookup pe.week (setWeekField st.weeks pe.week pe.field
      (if pyLower (pyStrip text) = "/remove" then none else some (pyStrip text)))
    = some (w.setField pe.field
        (if pyLower (pyStrip text) = "/remove" then none else some (pyStrip text)))
  rw [lookup_setWeekField_self, hk]
  rfl

theorem C4_store_failure_optimistic_witness :
    (route_text ⟨[("2024-03-11", ⟨⟨2024, 3, 11⟩, ⟨2024, 3, 17⟩, none, some "T1"⟩)],
        [(7, ⟨"2024-03-11", "familia"⟩)]⟩ 7 "Ana" true).err = some .storeError ∧
    (route_text ⟨[("2024-03-11", ⟨⟨2024, 3, 11⟩, ⟨2024, 3, 17⟩, none, some "T1"⟩)],
        [(7, ⟨"2024-03-11", "familia"⟩)]⟩ 7 "Ana" true).sent = [] ∧
    (route_text ⟨[("2024-03-11", ⟨⟨2024, 3, 11⟩, ⟨2024, 3, 17⟩, none, some "T1"⟩)],
        [(7, ⟨"2024-03-11", "familia"⟩)]⟩ 7 "Ana" true).upserts = [] ∧
    List.lookup (PendingEdit.mk "2024-03-11" "familia").week
        (route_text ⟨[("2024-03-11", ⟨⟨2024, 3, 11⟩, ⟨2024, 3, 17⟩, none, some "T1"⟩)],
          [(7, ⟨"2024-03-11", "familia"⟩)]⟩ 7 "Ana" true).state.weeks
      = some ((WeekRec.mk ⟨2024, 3, 11⟩ ⟨2024, 3, 17⟩ none (some "T1")).setField
          (PendingEdit.mk "2024-03-11" "familia").field
          (if pyLower (pyStrip "Ana") = "/remove" then none else some (pyStrip "Ana"))) :=
  C4_store_failure_optimistic
    ⟨[("2024-03-11", ⟨⟨2024, 3, 11⟩, ⟨2024, 3, 17⟩, none, some "T1"⟩)],
      [(7, ⟨"2024-03-11", "familia"⟩)]⟩ 7 "Ana" ⟨"2024-03-11", "familia"⟩ (by decide)
    ⟨⟨2024, 3, 11⟩, ⟨2024, 3, 17⟩, none, some "T1"⟩ (by decide)
    ⟨2024, 3, 11⟩ (by decide) (by decide) (by decide)

/-- The C4 claim as stated is false on the code: at this concrete state a
store failure escapes `handle_text` as an exception and the user receives no
notification at all. -/
theorem C4_counterexample :
    (route_text ⟨[("2024-03-11", ⟨⟨2024, 3, 11⟩, ⟨2024, 3, 17⟩, none, none⟩)],
        [(7, ⟨"2024-03-11", "familia"⟩)]⟩ 7 "Ana" true).err = some .storeError ∧
    (route_text ⟨[("2024-03-11", ⟨⟨2024, 3, 11⟩, ⟨2024, 3, 17⟩, none, none⟩)],
        [(7, ⟨"2024-03-11", "familia"⟩)]⟩ 7 "Ana" true).sent = [] := by
  decide

-- ### Claim C5

/-- Claim C5: the pending-edit map keys stay unique (at most one pending edit
per user); a familia/turno tap records the new pending edit for the tapping
user — silently overwriting whatever was there, with no conflict error — and
any free-text message actually routed to `handle_text` leaves that user with
no pending edit, whether the message was a valid edit or a malformed one
(stale week key, junk field, store failure alike). -/
theorem C5_single_pending (st : BotState) (uid : Nat) (key f : String) (today : Date)
    (hnodup : (st.pending_edits.map Prod.fst).Nodup)
    (hf : f = "familia" ∨ f = "turno") (w : WeekRec)
    (hk : List.lookup key st.weeks = some w)
    (text : String) (storeFail : Bool)
    (ht1 : text ≠ "") (ht2 : isCommandText text = false) :
    (List.lookup uid (handle_button st uid (f ++ ":" ++ key) today).state.pending_edits
        = some ⟨key, f⟩ ∧
      (handle_button st uid (f ++ ":" ++ key) today).err = none ∧
      ((handle_button st uid (f ++ ":" ++ key) today).state.pending_edits.map
        Prod.fst).Nodup) ∧
    (List.lookup uid (route_text st uid text storeFail).state.pending_edits = none ∧
      ((route_text st uid text storeFail).state.pending_edits.map Prod.fst).Nodup) := by
  have hb := handle_button_edit st uid f key today hf
  rw [hk] at hb
  have hroute := route_text_delivers st uid text storeFail ht1 ht2
  have hcons := handle_text_consumes st uid text storeFail
  have hconsn : List.lookup uid (handle_text st uid text storeFail).state.pending_edits
      = none := by
    rcases hcons with h | ⟨hequ, hnone⟩
    · exact h
    · rw [hequ, hnone]
  refine ⟨⟨?_, ?_, ?_⟩, ?_, ?_⟩
  · simp only [hb]
    exact setPending_lookup_self _ _ _
  · simp only [hb]
  · simp only [hb]
    exact setPending_keys_nodup _ _ _ hnodup
  · rw [hroute]
    exact hconsn
  · rw [hroute]
    exact handle_text_keys_nodup st uid text storeFail hnodup

theorem C5_single_pending_witness :
    (List.lookup 7 (handle_button ⟨[("2024-03-11", ⟨⟨2024, 3, 11⟩, ⟨2024, 3, 17⟩, none, none⟩)],
          [(7, ⟨"2099-09-09", "turno"⟩)]⟩ 7 ("familia" ++ ":" ++ "2024-03-11")
          ⟨2024, 3, 15⟩).state.pending_edits = some ⟨"2024-03-11", "familia"⟩ ∧
      (handle_button ⟨[("2024-03-11", ⟨⟨2024, 3, 11⟩, ⟨2024, 3, 17⟩, none, none⟩)],
          [(7, ⟨"2099-09-09", "turno"⟩)]⟩ 7 ("familia" ++ ":" ++ "2024-03-11")
          ⟨2024, 3, 15⟩).err = none ∧
      ((handle_button ⟨[("2024-03-11", ⟨⟨2024, 3, 11⟩, ⟨2024, 3, 17⟩, none, none⟩)],
          [(7, ⟨"2099-09-09", "turno"⟩)]⟩ 7 ("familia" ++ ":" ++ "2024-03-11")
          ⟨2024, 3, 15⟩).state.pending_edits.map Prod.fst).Nodup) ∧
    (List.lookup 7 (route_text ⟨[("2024-03-11", ⟨⟨2024, 3, 11⟩, ⟨2024, 3, 17⟩, none, none⟩)],
          [(7, ⟨"2099-09-09", "turno"⟩)]⟩ 7 "garbage input" false).state.pending_edits
        = none ∧
      ((route_text ⟨[("2024-03-11", ⟨⟨2024, 3, 11⟩, ⟨2024, 3, 17⟩, none, none⟩)],
          [(7, ⟨"2099-09-09", "turno"⟩)]⟩ 7 "garbage input" false).state.pending_edits.map
        Prod.fst).Nodup) :=
  C5_single_pending
    ⟨[("2024-03-11", ⟨⟨2024, 3, 11⟩, ⟨2024, 3, 17⟩, none, none⟩)],
      [(7, ⟨"2099-09-09", "turno"⟩)]⟩ 7 "2024-03-11" "familia" ⟨2024, 3, 15⟩ (by decide)
    (Or.inl rfl) ⟨⟨2024, 3, 11⟩, ⟨2024, 3, 17⟩, none, none⟩ (by decide)
    "garbage input" false (by decide) (by decide)

-- ### Claim C10

/-- Claim C10: a whitespace-only reply sets the pending field to the empty
string (not to unset), the store upsert persists "" instead of null, and the
renderer coalesces every falsy value, so an empty-string field shows the
placeholder glyph exactly like an unset field in both the grid row and the
week-detail view — the two are indistinguishable to the user. -/
theorem C10_empty_string_indistinguishable (st : BotState) (uid : Nat) (text : String)
    (pe : PendingEdit) (hpend : List.lookup uid st.pending_edits = some pe)
    (hfield : pe.field = "familia" ∨ pe.field = "turno")
    (w : WeekRec) (hk : List.lookup pe.week st.weeks = some w)
    (wsd : Date) (hparse : parseIso pe.week = some wsd)
    (hempty : pyStrip text = "") (ht1 : text ≠ "") (ht2 : isCommandText text = false) :
    List.lookup pe.week (route_text st uid text false).state.weeks
      = some (w.setField pe.field (some "")) ∧
    (route_text st uid text false).upserts
      = [⟨wsd, (w.setField pe.field (some "")).familia,
          (w.setField pe.field (some "")).turno⟩] ∧
    (∀ k : String, mkWeekRow (k, w.setField pe.field (some ""))
      = mkWeekRow (k, w.setField pe.field none)) ∧
    detailMsg (w.setField pe.field (some "")) = detailMsg (w.setField pe.field none) ∧
    orDash (some "") = "—" ∧ orDash none = "—" := by
  have hroute := route_text_delivers st uid text false ht1 ht2
  have hspec := handle_text_spec st uid text false pe hpend w hk wsd hparse
  have hnv : (if pyLower (pyStrip text) = "/remove" then none
      else some (pyStrip text)) = some "" := by
    rw [hempty]
    rw [if_neg (by decide)]
  refine ⟨?_, ?_, ?_, ?_, by decide, by decide⟩
  · rw [hroute, hspec, hnv]
    show List.lookup pe.week (setWeekField st.weeks pe.week pe.field (some ""))
      = some (w.setField pe.field (some ""))
    rw [lookup_setWeekField_self, hk]
    rfl
  · rw [hroute, hspec, hnv]
    rfl
  · intro k
    rcases hfield with hff | hff <;> rw [hff] <;>
      simp [WeekRec.setField, mkWeekRow, orDash, semanaLabel]
  · rcases hfield with hff | hff <;> rw [hff] <;>
      simp [WeekRec.setField, detailMsg, orDash]

theorem C10_empty_string_indistinguishable_witness :
    List.lookup (PendingEdit.mk "2024-03-11" "familia").week
        (route_text ⟨[("2024-03-11", ⟨⟨2024, 3, 11⟩, ⟨2024, 3, 17⟩, some "Ana", some "T1"⟩)],
          [(7, ⟨"2024-03-11", "familia"⟩)]⟩ 7 " " false).state.weeks
      = some ((WeekRec.mk ⟨2024, 3, 11⟩ ⟨2024, 3, 17⟩ (some "Ana") (some "T1")).setField
          (PendingEdit.mk "2024-03-11" "familia").field (some "")) ∧
    (route_text ⟨[("2024-03-11", ⟨⟨2024, 3, 11⟩, ⟨2024, 3, 17⟩, some "Ana", some "T1"⟩)],
        [(7, ⟨"2024-03-11", "familia"⟩)]⟩ 7 " " false).upserts
      = [⟨⟨2024, 3, 11⟩,
          ((WeekRec.mk ⟨2024, 3, 11⟩ ⟨2024, 3, 17⟩ (some "Ana") (some "T1")).setField
            (PendingEdit.mk "2024-03-11" "familia").field (some "")).familia,
          ((WeekRec.mk ⟨2024, 3, 11⟩ ⟨2024, 3, 17⟩ (some "Ana") (some "T1")).setField
            (PendingEdit.mk "2024-03-11" "familia").field (some "")).turno⟩] ∧
    (∀ k : String, mkWeekRow (k,
        (WeekRec.mk ⟨2024, 3, 11⟩ ⟨2024, 3, 17⟩ (some "Ana") (some "T1")).setField
          (PendingEdit.mk "2024-03-11" "familia").field (some ""))
      = mkWeekRow (k,
        (WeekRec.mk ⟨2024, 3, 11⟩ ⟨2024, 3, 17⟩ (some "Ana") (some "T1")).setField
          (PendingEdit.mk "2024-03-11" "familia").field none)) ∧
    detailMsg ((WeekRec.mk ⟨2024, 3, 11⟩ ⟨2024, 3, 17⟩ (some "Ana") (some "T1")).setField
        (PendingEdit.mk "2024-03-11" "familia").field (some ""))
      = detailMsg ((WeekRec.mk ⟨2024, 3, 11⟩ ⟨2024, 3, 17⟩ (some "Ana") (some "T1")).setField
        (PendingEdit.mk "2024-03-11" "familia").field none) ∧
    orDash (some "") = "—" ∧ orDash none = "—" :=
  C10_empty_string_indistinguishable
    ⟨[("2024-03-11", ⟨⟨2024, 3, 11⟩, ⟨2024, 3, 17⟩, some "Ana", some "T1"⟩)],
      [(7, ⟨"2024-03-11", "familia"⟩)]⟩ 7 " " ⟨"2024-03-11", "familia"⟩ (by decide)
    (Or.inl rfl) ⟨⟨2024, 3, 11⟩, ⟨2024, 3, 17⟩, some "Ana", some "T1"⟩ (by decide)
    ⟨2024, 3, 11⟩ (by decide) (by decide) (by decide) (by decide)
